import Mathlib

/-!
Shallow embedding of the DSP core of the `REPRODUCTORMUSICAL` desktop player
(`src/main.py`, latest revision): equalizer filter design, the worker loop's
block-processing stages, sample-rate negotiation, track loading, and the
persistence of equalizer settings.

Machine floating-point arithmetic is idealised as exact arithmetic over `ℝ`
(or `ℚ` where the source computes with exact integer/rational values), the
convention used throughout this development.  The embedding assumes the
optional DSP libraries (numpy/scipy/sounddevice/soundfile) are loaded, which
`load_and_play` requires before any playback can start.
-/

/-- The ten ISO band center frequencies, `_get_band_frequencies` in
`src/main.py`. -/
def bandFrequencies : List ℕ :=
  [31, 62, 125, 250, 500, 1000, 2000, 4000, 8000, 16000]

/-- `_design_band_filter(center_freq, gain_db, Q_factor)` from `src/main.py`:
peaking-EQ biquad design by the audio-EQ-cookbook formulas, normalised by
`a0`; returns the identity filter `([1], [1])` when the current file sample
rate is `0` (no track loaded).  `sampleRate` embeds `self._file_samplerate`. -/
noncomputable def designBandFilter (centerFreq gainDb qFactor : ℝ)
    (sampleRate : ℕ) : List ℝ × List ℝ :=
  if sampleRate = 0 then ([1], [1])
  else
    let A : ℝ := (10 : ℝ) ^ (gainDb / 40)
    let w0 : ℝ := 2 * Real.pi * centerFreq / sampleRate
    let alpha : ℝ := Real.sin w0 / (2 * qFactor)
    let b0 : ℝ := 1 + alpha * A
    let b1 : ℝ := -2 * Real.cos w0
    let b2 : ℝ := 1 - alpha * A
    let a0 : ℝ := 1 + alpha / A
    let a1 : ℝ := -2 * Real.cos w0
    let a2 : ℝ := 1 - alpha / A
    ([b0 / a0, b1 / a0, b2 / a0], [a0 / a0, a1 / a0, a2 / a0])

/-- C1: for a positive sample rate, `_design_band_filter` returns exactly the
audio-EQ-cookbook peaking biquad: with `A = 10^(gain/40)`,
`w0 = 2·π·f/sr`, `alpha = sin(w0)/(2·Q)`, `a0 = 1 + alpha/A`, it returns
`b = [1+alpha·A, -2·cos(w0), 1-alpha·A] / a0` and
`a = [a0, -2·cos(w0), 1-alpha/A] / a0`. -/
theorem designBandFilter_cookbook (centerFreq gainDb qFactor : ℝ)
    (sampleRate : ℕ) (hsr : sampleRate ≠ 0) :
    designBandFilter centerFreq gainDb qFactor sampleRate =
      (let A : ℝ := (10 : ℝ) ^ (gainDb / 40)
       let w0 : ℝ := 2 * Real.pi * centerFreq / sampleRate
       let alpha : ℝ := Real.sin w0 / (2 * qFactor)
       let a0 : ℝ := 1 + alpha / A
       ([(1 + alpha * A) / a0, (-2 * Real.cos w0) / a0, (1 - alpha * A) / a0],
        [a0 / a0, (-2 * Real.cos w0) / a0, (1 - alpha / A) / a0])) := by
  simp only [designBandFilter, if_neg hsr]

/-- Witness for C1 at the 1 kHz band, +6 dB, Q = 1, 44100 Hz. -/
theorem designBandFilter_cookbook_witness :
    designBandFilter 1000 6 1 44100 =
      (let A : ℝ := (10 : ℝ) ^ ((6 : ℝ) / 40)
       let w0 : ℝ := 2 * Real.pi * 1000 / (44100 : ℕ)
       let alpha : ℝ := Real.sin w0 / (2 * 1)
       let a0 : ℝ := 1 + alpha / A
       ([(1 + alpha * A) / a0, (-2 * Real.cos w0) / a0, (1 - alpha * A) / a0],
        [a0 / a0, (-2 * Real.cos w0) / a0, (1 - alpha / A) / a0])) :=
  designBandFilter_cookbook 1000 6 1 44100 (by norm_num)

/-- C2: with a sample rate of zero (no track loaded), `_design_band_filter`
takes its early-return branch and yields the identity filter
`b = [1], a = [1]` for every band parameterisation; the cookbook formulas
(and their divisions) are never evaluated. -/
theorem designBandFilter_zero_samplerate (centerFreq gainDb qFactor : ℝ) :
    designBandFilter centerFreq gainDb qFactor 0 = ([1], [1]) := by
  simp [designBandFilter]

/-- scipy.signal.lfilter's direct form II transposed recurrence for a
normalised biquad: `y[n] = b0·x[n] + z0`, `z0 ← b1·x[n] - a1·y[n] + z1`,
`z1 ← b2·x[n] - a2·y[n]`; returns the filtered block and the final two-tap
state. -/
def lfilterBiquadAux (b0 b1 b2 a1 a2 : ℝ) :
    ℝ × ℝ → List ℝ → List ℝ × (ℝ × ℝ)
  | z, [] => ([], z)
  | z, x :: xs =>
      let y := b0 * x + z.1
      let rest := lfilterBiquadAux b0 b1 b2 a1 a2
        (b1 * x - a1 * y + z.2, b2 * x - a2 * y) xs
      (y :: rest.1, rest.2)

/-- scipy.signal.lfilter at biquad order, as called from the worker loop
(`src/main.py:1416`): both coefficient vectors are normalised by `a[0]`,
then the direct form II transposed recurrence is run from the per-channel
state `zi`. -/
noncomputable def lfilterBiquad (b a : ℝ × ℝ × ℝ) (zi : ℝ × ℝ) (x : List ℝ) :
    List ℝ × (ℝ × ℝ) :=
  lfilterBiquadAux (b.1 / a.1) (b.2.1 / a.1) (b.2.2 / a.1)
    (a.2.1 / a.1) (a.2.2 / a.1) zi x

/-- numpy.isclose with its default tolerances (`rtol = 1e-5`,
`atol = 1e-8`): `|x - y| ≤ atol + rtol·|y|`. -/
def npIsClose (x y : ℝ) : Prop :=
  |x - y| ≤ 1e-8 + 1e-5 * |y|

/-- The worker loop's per-band skip test (`src/main.py:1408`): a band is
skipped exactly when its coefficient vectors are the identity filter
`b = [1], a = [1]` up to numpy.isclose. -/
def isIdentityFilt (f : List ℝ × List ℝ) : Prop :=
  f.1.length = 1 ∧ npIsClose (f.1.headD 0) 1 ∧
  f.2.length = 1 ∧ npIsClose (f.2.headD 0) 1

/-- The per-channel loop of one equalizer band (`src/main.py:1409-1419`):
channel `i` is filtered with its own state column, and the updated state is
written back. -/
noncomputable def bandApplyChannels (b a : ℝ × ℝ × ℝ) :
    List (List ℝ) → List (ℝ × ℝ) → List (List ℝ) × List (ℝ × ℝ)
  | [], sts => ([], sts)
  | ch :: chs, [] => (ch :: chs, [])
  | ch :: chs, z :: zs =>
      let r := lfilterBiquad b a z ch
      let rest := bandApplyChannels b a chs zs
      (r.1 :: rest.1, r.2 :: rest.2)

open scoped Classical

/-- One band of the worker loop's equalizer stage (`src/main.py:1407-1420`):
identity filters are skipped outright; otherwise every channel is filtered
by lfilter with that channel's two-tap state.  `designBandFilter` only ever
produces the identity pair or three-tap biquads, so the model fixes the
filter order at two and leaves any other shape untouched. -/
noncomputable def applyBandToBlock (f : List ℝ × List ℝ)
    (block : List (List ℝ)) (st : List (ℝ × ℝ)) :
    List (List ℝ) × List (ℝ × ℝ) :=
  if isIdentityFilt f then (block, st)
  else
    match f with
    | ([b0, b1, b2], [a0, a1, a2]) =>
        bandApplyChannels (b0, b1, b2) (a0, a1, a2) block st
    | _ => (block, st)

/-- The cascaded equalizer stage of one worker-loop iteration
(`src/main.py:1404-1421`): band `i` is applied with its own state row
`states[i]`, and the block threads through the bands in order. -/
noncomputable def eqApplyBlock :
    List (List ℝ × List ℝ) → List (List (ℝ × ℝ)) → List (List ℝ) →
    List (List ℝ) × List (List (ℝ × ℝ))
  | [], sts, block => (block, sts)
  | _ :: _, [], block => (block, [])
  | f :: fs, st :: sts, block =>
      let r := applyBandToBlock f block st
      let rest := eqApplyBlock fs sts r.1
      (rest.1, r.2 :: rest.2)

/-- The zero state array `load_and_play` allocates for one band
(`src/main.py:1229`): shape `(max(len b, len a) - 1) × channels`, i.e. two
taps per channel for a biquad and empty for the identity filter. -/
def zeroStateFor (f : List ℝ × List ℝ) (channels : ℕ) : List (ℝ × ℝ) :=
  if max f.1.length f.2.length - 1 = 0 then []
  else List.replicate channels ((0 : ℝ), (0 : ℝ))

/-- The full filter-state reset of `load_and_play` (`src/main.py:1229-1230`):
one zero state array per band. -/
def zeroFilterStates (filters : List (List ℝ × List ℝ)) (channels : ℕ) :
    List (List (ℝ × ℝ)) :=
  filters.map fun f => zeroStateFor f channels

/-- The filter bank `load_and_play` designs when every band gain is 0 dB
(default Q factor 1), at the track's sample rate. -/
noncomputable def flatFilterBank (sampleRate : ℕ) : List (List ℝ × List ℝ) :=
  bandFrequencies.map fun f => designBandFilter (f : ℝ) 0 1 sampleRate

/-- A biquad whose numerator and denominator coincide (with leading
coefficient `1`) run from the zero state returns its input unchanged and
leaves the state at zero. -/
theorem lfilterBiquadAux_matched (c d : ℝ) (xs : List ℝ) :
    lfilterBiquadAux 1 c d c d (0, 0) xs = (xs, (0, 0)) := by
  induction xs with
  | nil => rfl
  | cons x xs ih =>
      simp only [lfilterBiquadAux]
      rw [show (1 : ℝ) * x + (0, 0).1 = x by simp,
          show c * x - c * x + (0, 0).2 = 0 by simp,
          show d * x - d * x = 0 by simp, ih]

/-- scipy lfilter with `b = a = (1, c, d)` is the identity from zero state. -/
theorem lfilterBiquad_matched (c d : ℝ) (xs : List ℝ) :
    lfilterBiquad (1, c, d) (1, c, d) (0, 0) xs = (xs, (0, 0)) := by
  simp only [lfilterBiquad, div_one]
  exact lfilterBiquadAux_matched c d xs

/-- At 0 dB gain (and Q = 1) the cookbook design degenerates to a filter
whose numerator and denominator coincide, with leading coefficient
`a0/a0 = 1`: since `A = 10^0 = 1`, `alpha·A = alpha/A` and `b0 = a0`, and
`a0 = 1 + sin(w0)/2 ≥ 1/2` is nonzero. -/
theorem designBandFilter_flat (centerFreq : ℝ) (sampleRate : ℕ)
    (hsr : sampleRate ≠ 0) :
    ∃ c d : ℝ, designBandFilter centerFreq 0 1 sampleRate =
      ([1, c, d], [1, c, d]) := by
  have hA : (10 : ℝ) ^ ((0 : ℝ) / 40) = 1 := by
    rw [zero_div, Real.rpow_zero]
  set w0 : ℝ := 2 * Real.pi * centerFreq / (sampleRate : ℕ) with hw0
  have hsin : (-1 : ℝ) ≤ Real.sin w0 := Real.neg_one_le_sin w0
  have hne : (1 : ℝ) + Real.sin w0 / 2 ≠ 0 := by
    have : (0 : ℝ) < 1 + Real.sin w0 / 2 := by linarith
    exact ne_of_gt this
  refine ⟨-2 * Real.cos w0 / (1 + Real.sin w0 / 2),
    (1 - Real.sin w0 / 2) / (1 + Real.sin w0 / 2), ?_⟩
  rw [designBandFilter_cookbook centerFreq 0 1 sampleRate hsr]
  simp only [hA, ← hw0, mul_one, div_one, div_self hne]

/-- The identity pair `([1], [1])` passes the worker loop's skip test. -/
theorem isIdentityFilt_one : isIdentityFilt ([1], [1]) := by
  refine ⟨rfl, ?_, rfl, ?_⟩ <;>
    · simp only [npIsClose, List.headD_cons, sub_self, abs_zero, abs_one]
      norm_num

/-- A three-tap filter fails the worker loop's skip test (length check). -/
theorem not_isIdentityFilt_biquad (b0 b1 b2 a0 a1 a2 : ℝ) :
    ¬ isIdentityFilt ([b0, b1, b2], [a0, a1, a2]) := by
  intro h
  simpa using h.1

/-- A matched biquad applied across all channels from zero states is the
identity on the block and on the states. -/
theorem bandApplyChannels_matched (c d : ℝ) (block : List (List ℝ)) :
    bandApplyChannels (1, c, d) (1, c, d) block
        (List.replicate block.length (0, 0)) =
      (block, List.replicate block.length (0, 0)) := by
  induction block with
  | nil => rfl
  | cons ch chs ih =>
      simp only [List.length_cons, List.replicate_succ, bandApplyChannels,
        lfilterBiquad_matched, ih]

/-- A filter passing the skip test is a no-op band. -/
theorem applyBandToBlock_of_identity (f : List ℝ × List ℝ)
    (h : isIdentityFilt f) (block : List (List ℝ)) (st : List (ℝ × ℝ)) :
    applyBandToBlock f block st = (block, st) := by
  unfold applyBandToBlock
  rw [if_pos h]

/-- A three-tap band is applied channel by channel through lfilter. -/
theorem applyBandToBlock_of_biquad (b0 b1 b2 a0 a1 a2 : ℝ)
    (block : List (List ℝ)) (st : List (ℝ × ℝ)) :
    applyBandToBlock ([b0, b1, b2], [a0, a1, a2]) block st =
      bandApplyChannels (b0, b1, b2) (a0, a1, a2) block st := by
  unfold applyBandToBlock
  rw [if_neg (not_isIdentityFilt_biquad b0 b1 b2 a0 a1 a2)]

/-- Every band of a flat (all 0 dB) filter bank leaves any block and its own
zero state row unchanged. -/
theorem applyBandToBlock_flat (centerFreq : ℝ) (sampleRate : ℕ)
    (block : List (List ℝ)) :
    applyBandToBlock (designBandFilter centerFreq 0 1 sampleRate) block
        (zeroStateFor (designBandFilter centerFreq 0 1 sampleRate)
          block.length) =
      (block,
       zeroStateFor (designBandFilter centerFreq 0 1 sampleRate)
         block.length) := by
  by_cases hsr : sampleRate = 0
  · subst hsr
    rw [designBandFilter_zero_samplerate]
    exact applyBandToBlock_of_identity _ isIdentityFilt_one _ _
  · obtain ⟨c, d, hf⟩ := designBandFilter_flat centerFreq sampleRate hsr
    rw [hf, applyBandToBlock_of_biquad]
    have hzs : zeroStateFor (([1, c, d], [1, c, d]) : List ℝ × List ℝ)
        block.length = List.replicate block.length (0, 0) := by
      simp [zeroStateFor]
    rw [hzs]
    exact bandApplyChannels_matched c d block

/-- Cascading bands that each leave a block and their zero state unchanged is
itself the identity on the block. -/
theorem eqApplyBlock_identity_of (fs : List (List ℝ × List ℝ))
    (h : ∀ f ∈ fs, ∀ block : List (List ℝ),
      applyBandToBlock f block (zeroStateFor f block.length) =
        (block, zeroStateFor f block.length))
    (block : List (List ℝ)) :
    (eqApplyBlock fs (zeroFilterStates fs block.length) block).1 = block := by
  induction fs with
  | nil => rfl
  | cons f fs ih =>
      have hf := h f (List.mem_cons_self f fs) block
      have hrest : ∀ g ∈ fs, ∀ blk : List (List ℝ),
          applyBandToBlock g blk (zeroStateFor g blk.length) =
            (blk, zeroStateFor g blk.length) :=
        fun g hg => h g (List.mem_cons_of_mem f hg)
      have ih2 := ih hrest
      simp only [zeroFilterStates] at ih2
      simp only [zeroFilterStates, List.map_cons, eqApplyBlock, hf]
      exact ih2

/-- C3: with all ten equalizer bands at exactly 0 dB gain, the cascaded
equalizer filter stage of the worker loop — the filters designed by
`_design_band_filter` applied via lfilter starting from the zero filter
states allocated in `load_and_play` — returns every input block unchanged,
for every channel count and every track sample rate (exactly, hence within
any floating-point tolerance). -/
theorem eqStage_flat_identity (sampleRate : ℕ) (block : List (List ℝ)) :
    (eqApplyBlock (flatFilterBank sampleRate)
        (zeroFilterStates (flatFilterBank sampleRate) block.length)
        block).1 = block := by
  refine eqApplyBlock_identity_of _ ?_ block
  intro f hf blk
  simp only [flatFilterBank, List.mem_map] at hf
  obtain ⟨freq, _, rfl⟩ := hf
  exact applyBandToBlock_flat (freq : ℝ) sampleRate blk

/-- The worker loop's fixed output block size (`src/main.py:1290`). -/
def blocksizeOutput : ℕ := 1024

/-- scipy.signal.resample as called by the worker loop (external library,
not part of the repository): band-limited resampling of one channel to
exactly `num` output samples.  The spec (§4.2, §9) pins down only the
exact-output-frame-count contract and leaves the interpolation algorithm
open, so the model realises the contract by index-mapped sampling. -/
def resampleSig (x : List ℝ) (num : ℕ) : List ℝ :=
  List.ofFn fun i : Fin num => x.getD (i.val * x.length / num) 0

/-- The equal-rate branch of the resampling stage (`src/main.py:1437-1443`):
zero-pad a short block to `n` frames, truncate a long one, and pass an
exact-size block through unchanged. -/
def padTruncateChannel (ch : List ℝ) (n : ℕ) : List ℝ :=
  if ch.length < n then ch ++ List.replicate (n - ch.length) 0
  else if n < ch.length then ch.take n
  else ch

/-- The resampling stage of the worker loop (`src/main.py:1423-1443`), per
channel: when the file rate differs from the output rate every channel is
resampled to exactly `blocksize_output` frames (into a preallocated
`blocksize_output × channels` array); when the rates agree the block passes
through, padded or truncated to `blocksize_output` frames. -/
def resampleStage (fileSamplerate outputSamplerate : ℕ)
    (block : List (List ℝ)) : List (List ℝ) :=
  if fileSamplerate ≠ outputSamplerate then
    block.map fun ch => resampleSig ch blocksizeOutput
  else
    block.map fun ch => padTruncateChannel ch blocksizeOutput

/-- `resampleSig` honours the exact-frame-count contract. -/
theorem resampleSig_length (x : List ℝ) (num : ℕ) :
    (resampleSig x num).length = num := by
  simp [resampleSig]

/-- Padding/truncation also returns exactly `n` frames. -/
theorem padTruncateChannel_length (ch : List ℝ) (n : ℕ) :
    (padTruncateChannel ch n).length = n := by
  unfold padTruncateChannel
  by_cases h1 : ch.length < n
  · rw [if_pos h1]
    simp
    omega
  · rw [if_neg h1]
    by_cases h2 : n < ch.length
    · rw [if_pos h2]
      simp
      omega
    · rw [if_neg h2]
      omega

/-- C4: every block leaving the worker loop's resampling stage has exactly
`blocksize_output = 1024` frames in every channel — in the resampling
direction (rates differ, upsampling or downsampling alike) and in the
degenerate equal-rate pad/truncate branch. -/
theorem resampleStage_frame_count (fileSamplerate outputSamplerate : ℕ)
    (block : List (List ℝ)) :
    (resampleStage fileSamplerate outputSamplerate block).map List.length =
      List.replicate block.length blocksizeOutput := by
  have hmap : ∀ g : List ℝ → List ℝ,
      (∀ ch, (g ch).length = blocksizeOutput) → ∀ l : List (List ℝ),
      (l.map g).map List.length = List.replicate l.length blocksizeOutput := by
    intro g hg l
    induction l with
    | nil => rfl
    | cons ch chs ih =>
        simp only [List.map_cons, List.length_cons, List.replicate_succ,
          hg ch, ih]
  unfold resampleStage
  by_cases h : fileSamplerate ≠ outputSamplerate
  · rw [if_pos h]
    exact hmap _ (fun ch => resampleSig_length ch blocksizeOutput) block
  · rw [if_neg h]
    exact hmap _ (fun ch => padTruncateChannel_length ch blocksizeOutput) block

/-- The source-side block size the worker loop requests per iteration
(`src/main.py:1389-1390`): `ceil(blocksize_output · fileRate/outputRate)`,
bumped to 1 if the ceiling comes out zero. -/
def inputFramesToRead (fileSamplerate outputSamplerate : ℕ) : ℕ :=
  let n := ⌈(blocksizeOutput : ℚ) *
    ((fileSamplerate : ℚ) / (outputSamplerate : ℚ))⌉₊
  if n = 0 then 1 else n

/-- The read-and-advance step of one emitting worker-loop iteration
(`src/main.py:1392-1393` and `1535-1536`): clip the requested source frames
to what remains of the track, then advance the playback position by the
source frames actually consumed.  Returns
`(actualInputFramesRead, newCurrentFrame)`. -/
def workerReadAdvance (currentFrame totalFrames fileSamplerate
    outputSamplerate : ℕ) : ℕ × ℕ :=
  let requested := inputFramesToRead fileSamplerate outputSamplerate
  let framesAvailable := totalFrames - currentFrame
  let actual := min requested framesAvailable
  (actual, currentFrame + actual)

/-- C5: in every emitting worker-loop iteration the engine requests
`ceil(blocksize_output · sourceRate/outputRate)` source frames (the
bump-to-1 guard never fires for positive rates), reads only the frames
remaining when fewer remain, and advances `current_frame` by exactly the
source frames actually consumed — never past `total_frames`. -/
theorem workerReadAdvance_spec (currentFrame totalFrames fileSamplerate
    outputSamplerate : ℕ) (hfs : 0 < fileSamplerate)
    (hos : 0 < outputSamplerate) (hpos : currentFrame ≤ totalFrames) :
    inputFramesToRead fileSamplerate outputSamplerate =
        ⌈(blocksizeOutput : ℚ) *
          ((fileSamplerate : ℚ) / (outputSamplerate : ℚ))⌉₊ ∧
      (workerReadAdvance currentFrame totalFrames fileSamplerate
          outputSamplerate).1 =
        min (inputFramesToRead fileSamplerate outputSamplerate)
          (totalFrames - currentFrame) ∧
      (workerReadAdvance currentFrame totalFrames fileSamplerate
          outputSamplerate).2 =
        currentFrame + (workerReadAdvance currentFrame totalFrames
          fileSamplerate outputSamplerate).1 ∧
      (workerReadAdvance currentFrame totalFrames fileSamplerate
          outputSamplerate).2 ≤ totalFrames := by
  have hpos0 : (0 : ℚ) < (blocksizeOutput : ℚ) *
      ((fileSamplerate : ℚ) / (outputSamplerate : ℚ)) := by
    apply mul_pos
    · simp [blocksizeOutput]
    · apply div_pos <;> exact_mod_cast ‹_›
  have hne : ⌈(blocksizeOutput : ℚ) *
      ((fileSamplerate : ℚ) / (outputSamplerate : ℚ))⌉₊ ≠ 0 := by
    have := Nat.ceil_pos.mpr hpos0
    omega
  refine ⟨?_, rfl, rfl, ?_⟩
  · unfold inputFramesToRead
    simp only [if_neg hne]
  · have h1 : min (inputFramesToRead fileSamplerate outputSamplerate)
        (totalFrames - currentFrame) ≤ totalFrames - currentFrame :=
      min_le_right _ _
    unfold workerReadAdvance
    simp only
    omega

/-- Witness for C5 at a 44100 Hz track on a 48000 Hz device, frame 0 of a
441000-frame track. -/
theorem workerReadAdvance_spec_witness :
    inputFramesToRead 44100 48000 =
        ⌈(blocksizeOutput : ℚ) * (((44100 : ℕ) : ℚ) / ((48000 : ℕ) : ℚ))⌉₊ ∧
      (workerReadAdvance 0 441000 44100 48000).1 =
        min (inputFramesToRead 44100 48000) (441000 - 0) ∧
      (workerReadAdvance 0 441000 44100 48000).2 =
        0 + (workerReadAdvance 0 441000 44100 48000).1 ∧
      (workerReadAdvance 0 441000 44100 48000).2 ≤ 441000 :=
  workerReadAdvance_spec 0 441000 44100 48000 (by norm_num) (by norm_num)
    (by norm_num)

/-- numpy.clip of one sample to the closed interval [-1, 1]
(`src/main.py:1471`). -/
def clipSample (x : ℝ) : ℝ :=
  min (max x (-1)) 1

/-- The master-gain attenuation applied before equalization
(`src/main.py:1402`, factor `10^(-9/20)` set up at `src/main.py:2115-2116`). -/
def applyMasterGain (gainFactor : ℝ) (block : List (List ℝ)) :
    List (List ℝ) :=
  block.map fun ch => ch.map fun x => x * gainFactor

/-- Session-volume scaling (`src/main.py:1445-1446`). -/
def applyVolume (volume : ℝ) (block : List (List ℝ)) : List (List ℝ) :=
  block.map fun ch => ch.map fun x => x * volume

/-- The fade-in envelope application (`src/main.py:1448-1465`): the
per-frame factors (a linspace segment resampled to the output block) are
clipped to [0, 1] and multiply every channel pointwise. -/
def applyFadeFactors (factors : List ℝ) (block : List (List ℝ)) :
    List (List ℝ) :=
  block.map fun ch =>
    (ch.zip (factors.map fun t => min (max t 0) 1)).map fun p => p.1 * p.2

/-- One worker-loop block through every processing stage up to the device
write (`src/main.py:1402-1471`): master gain, cascaded equalization,
resampling to the output block size, session volume, the fade-in envelope
when one is active, and the final hard clip to [-1, 1]. -/
noncomputable def workerEmitBlock (masterGainFactor : ℝ)
    (filters : List (List ℝ × List ℝ)) (states : List (List (ℝ × ℝ)))
    (fileSamplerate outputSamplerate : ℕ) (volume : ℝ)
    (fade : Option (List ℝ)) (inputBlock : List (List ℝ)) :
    List (List ℝ) :=
  let gained := applyMasterGain masterGainFactor inputBlock
  let equalized := (eqApplyBlock filters states gained).1
  let resampled := resampleStage fileSamplerate outputSamplerate equalized
  let leveled := applyVolume volume resampled
  let faded := match fade with
    | none => leveled
    | some factors => applyFadeFactors factors leveled
  faded.map fun ch => ch.map clipSample

/-- C6: every sample of every block handed to the stream write lies in the
closed interval [-1, 1] — after master gain, equalization, resampling,
session volume and any fade-in envelope, the block is hard-clipped before
the write, whatever the input block and gain/volume settings. -/
theorem workerEmitBlock_in_range (masterGainFactor : ℝ)
    (filters : List (List ℝ × List ℝ)) (states : List (List (ℝ × ℝ)))
    (fileSamplerate outputSamplerate : ℕ) (volume : ℝ)
    (fade : Option (List ℝ)) (inputBlock : List (List ℝ))
    (ch : List ℝ) (x : ℝ)
    (hch : ch ∈ workerEmitBlock masterGainFactor filters states
      fileSamplerate outputSamplerate volume fade inputBlock)
    (hx : x ∈ ch) : -1 ≤ x ∧ x ≤ 1 := by
  unfold workerEmitBlock at hch
  rw [List.mem_map] at hch
  obtain ⟨ch0, -, rfl⟩ := hch
  rw [List.mem_map] at hx
  obtain ⟨y, -, rfl⟩ := hx
  unfold clipSample
  constructor
  · exact le_min (le_max_right y (-1)) (by norm_num)
  · exact min_le_right _ 1

/-- Witness for C6: a silent one-channel block, no fade, unit gains. -/
theorem workerEmitBlock_in_range_witness :
    -1 ≤ clipSample 0 ∧ clipSample 0 ≤ 1 :=
  workerEmitBlock_in_range 1 [] [] 0 0 1 none [[]]
    (List.replicate blocksizeOutput (clipSample 0)) (clipSample 0)
    (by
      have hpad : padTruncateChannel [] blocksizeOutput =
          List.replicate blocksizeOutput 0 := by
        unfold padTruncateChannel
        rw [if_pos (by norm_num [blocksizeOutput] :
          ([] : List ℝ).length < blocksizeOutput)]
        simp only [List.length_nil, Nat.sub_zero, List.nil_append]
      simp [workerEmitBlock, applyMasterGain, applyVolume, resampleStage,
        eqApplyBlock, hpad, List.map_replicate])
    (by
      rw [List.mem_replicate]
      exact ⟨by norm_num [blocksizeOutput], rfl⟩)

/-- The seen-set de-duplication loop of `_find_optimal_device_samplerate`
(`src/main.py:1146-1151`): keep the first occurrence of each candidate
rate, preserving order. -/
def dedupAux (seen : List ℕ) : List ℕ → List ℕ
  | [] => []
  | sr :: rest =>
      if sr ∈ seen then dedupAux seen rest
      else sr :: dedupAux (sr :: seen) rest

/-- Order-preserving de-duplication starting from an empty seen set. -/
def dedupKeepFirst (l : List ℕ) : List ℕ :=
  dedupAux [] l

/-- `_find_optimal_device_samplerate` (`src/main.py:1138-1184`) for a fixed
device and channel count.  `accepts sr` embeds a successful
`sd.check_output_settings` probe at rate `sr`, `deviceDefaultSr` the
device's reported default sample rate, and `querySucceeds` whether querying
the device's capabilities raised (the outer exception handler).  The
prioritized candidates are probed first (duplicates removed, first
occurrence kept), then the device default, and the file's own rate is the
fallback. -/
def findOptimalDeviceSamplerate (fileSamplerate : ℕ) (querySucceeds : Bool)
    (deviceDefaultSr : ℕ) (accepts : ℕ → Bool) : ℕ :=
  if !querySucceeds then fileSamplerate
  else
    let prioritizedSamplerates := [fileSamplerate, 48000, 44100, 96000, 88200]
    let uniquePrioritizedSamplerates := dedupKeepFirst prioritizedSamplerates
    match uniquePrioritizedSamplerates.find? accepts with
    | some sr => sr
    | none =>
        if accepts deviceDefaultSr then deviceDefaultSr
        else fileSamplerate

/-- Removing later duplicates never changes the first accepted candidate:
`find?` over the de-duplicated list agrees with `find?` over the original,
as long as nothing in the seen set is accepted. -/
theorem find?_dedupAux (p : ℕ → Bool) (l : List ℕ) :
    ∀ seen : List ℕ, (∀ x ∈ seen, p x = false) →
      (dedupAux seen l).find? p = l.find? p := by
  induction l with
  | nil => intro seen _; rfl
  | cons sr rest ih =>
      intro seen hseen
      unfold dedupAux
      by_cases hmem : sr ∈ seen
      · rw [if_pos hmem, ih seen hseen,
          List.find?_cons_of_neg _ (by simp [hseen sr hmem])]
      · rw [if_neg hmem]
        cases hp : p sr with
        | true =>
            rw [List.find?_cons_of_pos _ hp, List.find?_cons_of_pos _ hp]
        | false =>
            rw [List.find?_cons_of_neg _ (by simp [hp]),
              List.find?_cons_of_neg _ (by simp [hp])]
            refine ih (sr :: seen) ?_
            intro x hx
            rcases List.mem_cons.mp hx with h | h
            · simpa [h] using hp
            · exact hseen x h

/-- C9: sample-rate negotiation returns the first rate the device accepts
along the probe order file rate, 48000, 44100, 96000, 88200 (first
occurrences only), then the device default; the file's rate is returned
when nothing is accepted, and also when querying the device fails. -/
theorem findOptimalDeviceSamplerate_spec (fileSamplerate deviceDefaultSr : ℕ)
    (accepts : ℕ → Bool) :
    findOptimalDeviceSamplerate fileSamplerate false deviceDefaultSr accepts =
        fileSamplerate ∧
      findOptimalDeviceSamplerate fileSamplerate true deviceDefaultSr
          accepts =
        (List.find? accepts
            ([fileSamplerate, 48000, 44100, 96000, 88200] ++
              [deviceDefaultSr])).getD fileSamplerate := by
  constructor
  · rfl
  · unfold findOptimalDeviceSamplerate
    simp only [Bool.not_true, if_neg (by simp : ¬ (false = true))]
    rw [show dedupKeepFirst [fileSamplerate, 48000, 44100, 96000, 88200] =
        dedupAux [] [fileSamplerate, 48000, 44100, 96000, 88200] from rfl]
    rw [find?_dedupAux accepts _ [] (by intro x hx; cases hx)]
    cases hfind :
        List.find? accepts [fileSamplerate, 48000, 44100, 96000, 88200] with
    | some sr =>
        rw [List.find?_append, hfind]
        simp
    | none =>
        rw [List.find?_append, hfind]
        cases hacc : accepts deviceDefaultSr with
        | true => simp [List.find?, hacc]
        | false => simp [List.find?, hacc]

/-- The decoded PCM buffer as soundfile.read returns it to `load_and_play`:
one-dimensional for a mono file, frame-major two-dimensional otherwise. -/
inductive DecodedPCM where
  | mono (samples : List ℝ)
  | multi (frames : List (List ℝ))

/-- The buffer installation step of `load_and_play`
(`src/main.py:1206-1211`): a one-dimensional mono stream is duplicated into
two identical channels by numpy.stack along the last axis and the channel
count is fixed at 2; a multichannel stream is stored as is with its own
column count.  Returns `(current_audio_data_original,
audio_channels_original)`. -/
def prepareTrackBuffer : DecodedPCM → List (List ℝ) × ℕ
  | .mono samples => (samples.map fun x => [x, x], 2)
  | .multi frames => (frames, (frames.headD []).length)

/-- C10: a mono file is stored as a two-channel buffer whose two channels
are both identical to the decoded mono signal, with the original channel
count set to 2 and one stored frame per decoded sample. -/
theorem prepareTrackBuffer_mono (samples : List ℝ) :
    (prepareTrackBuffer (.mono samples)).2 = 2 ∧
      (prepareTrackBuffer (.mono samples)).1.map (fun fr => fr.getD 0 0) =
        samples ∧
      (prepareTrackBuffer (.mono samples)).1.map (fun fr => fr.getD 1 0) =
        samples ∧
      (prepareTrackBuffer (.mono samples)).1.length = samples.length := by
  refine ⟨rfl, ?_, ?_, by simp [prepareTrackBuffer]⟩ <;>
    · simp only [prepareTrackBuffer, List.map_map]
      refine List.map_id'' ?_ samples |>.symm ▸ ?_
      all_goals simp [Function.comp]

/-- One element of the list persisted under the "equalizer_settings" key: a
numeric value, or something Python's int() cannot convert. -/
inductive StoredVal where
  | num (q : ℚ)
  | nonNumeric
deriving DecidableEq

/-- Python's int() on a number: truncation toward zero. -/
def pyTrunc (q : ℚ) : ℤ :=
  if q < 0 then ⌈q⌉ else ⌊q⌋

/-- Python's int() on a stored value, as attempted at startup
(`src/main.py:2076`): raises (returns `none`) on a non-numeric value. -/
def pyIntOfStored : StoredVal → Option ℤ
  | .num q => some (pyTrunc q)
  | .nonNumeric => none

/-- `apply_equalizer_settings` (`src/main.py:826-831`): the per-band gains
extracted from the equalizer window, in band order, become the active
settings and are persisted verbatim under "equalizer_settings". -/
def saveEqualizerSettings (gains : List ℚ) : List StoredVal :=
  gains.map StoredVal.num

/-- The startup load of `MusicPlayer.__init__` (`src/main.py:2074-2083`):
read the stored list (all-zero when the key is absent), convert every
element with int(), and require exactly 10 entries; on any conversion
failure or wrong length, reset the active settings to the flat all-zero
vector and persist that default.  Returns the active settings together
with the value written back to the store, if any.  The conversion models
the list comprehension `[int(x) for x in loaded_settings]`
(`src/main.py:2076`), which propagates the first conversion failure as a
raised exception (`none`). -/
def pyIntList : List StoredVal → Option (List ℤ)
  | [] => some []
  | v :: rest =>
      match pyIntOfStored v, pyIntList rest with
      | some z, some zs => some (z :: zs)
      | _, _ => none

/-- The remainder of the startup load described above: length validation and
the reset-and-persist fallback. -/
def loadEqualizerSettingsAtStartup (stored : Option (List StoredVal)) :
    List ℤ × Option (List ℤ) :=
  let loadedSettings :=
    stored.getD ((List.replicate 10 (0 : ℚ)).map StoredVal.num)
  match pyIntList loadedSettings with
  | none => (List.replicate 10 0, some (List.replicate 10 0))
  | some settings =>
      if settings.length ≠ 10 then
        (List.replicate 10 0, some (List.replicate 10 0))
      else (settings, none)

/-- Converting saved numeric gains never fails and truncates pointwise. -/
theorem pyIntList_save (gains : List ℚ) :
    pyIntList (saveEqualizerSettings gains) = some (gains.map pyTrunc) := by
  induction gains with
  | nil => rfl
  | cons q rest ih =>
      simp only [saveEqualizerSettings, List.map_cons] at ih ⊢
      simp only [pyIntList, pyIntOfStored, ih]

/-- Successful startup conversion with the right length keeps the converted
settings and writes nothing back. -/
theorem loadEqualizerSettingsAtStartup_valid (l : List StoredVal)
    (settings : List ℤ) (hconv : pyIntList l = some settings)
    (hlen : settings.length = 10) :
    loadEqualizerSettingsAtStartup (some l) = (settings, none) := by
  unfold loadEqualizerSettingsAtStartup
  simp only [Option.getD_some, hconv]
  rw [if_neg (by simp [hlen])]

/-- C7 counterexample: the gain vector `[2.5, 0, ..., 0]` (ten entries, all
within ±12 dB) does not survive a save/reload round trip — the reload
truncates 2.5 dB to 2 dB. -/
theorem equalizerSettings_roundtrip_counterexample :
    ((loadEqualizerSettingsAtStartup (some (saveEqualizerSettings
        [5/2, 0, 0, 0, 0, 0, 0, 0, 0, 0]))).1.map (fun z : ℤ => (z : ℚ))) ≠
      [5/2, 0, 0, 0, 0, 0, 0, 0, 0, 0] := by
  have h52 : pyTrunc (5/2) = 2 := by
    unfold pyTrunc
    rw [if_neg (by norm_num)]
    rw [Int.floor_eq_iff]
    norm_num
  have hload := loadEqualizerSettingsAtStartup_valid
    (saveEqualizerSettings [5/2, 0, 0, 0, 0, 0, 0, 0, 0, 0])
    ([5/2, 0, 0, 0, 0, 0, 0, 0, 0, 0].map pyTrunc)
    (pyIntList_save _) (by simp)
  rw [hload]
  have h0 : pyTrunc 0 = 0 := by
    unfold pyTrunc
    rw [if_neg (by norm_num)]
    norm_num
  simp only [List.map_cons, List.map_nil, h52, h0]
  intro hcontra
  injection hcontra with h1 _
  norm_num at h1

/-- C7 (amended): for every 10-element, integer-valued gain vector within
[-12, 12] dB, saving the equalizer settings and reloading them at startup
reproduces the identical gain vector; non-integer gains are truncated
toward zero by the reload's int() conversion. -/
theorem equalizerSettings_roundtrip_integer (gains : List ℚ)
    (hlen : gains.length = 10)
    (_hrange : ∀ q ∈ gains, -12 ≤ q ∧ q ≤ 12)
    (hint : ∀ q ∈ gains, ((⌊q⌋ : ℤ) : ℚ) = q) :
    ((loadEqualizerSettingsAtStartup (some (saveEqualizerSettings
        gains))).1.map (fun z : ℤ => (z : ℚ))) = gains := by
  have hpt : ∀ q ∈ gains, ((pyTrunc q : ℤ) : ℚ) = q := by
    intro q hq
    unfold pyTrunc
    by_cases hneg : q < 0
    · rw [if_pos hneg]
      have hceil : ⌈q⌉ = ⌊q⌋ := by
        conv_lhs => rw [← hint q hq]
        exact Int.ceil_intCast _
      rw [hceil]
      exact hint q hq
    · rw [if_neg hneg]
      exact hint q hq
  have hmapid : ∀ l : List ℚ, (∀ q ∈ l, ((pyTrunc q : ℤ) : ℚ) = q) →
      l.map (fun q => ((pyTrunc q : ℤ) : ℚ)) = l := by
    intro l hl
    induction l with
    | nil => rfl
    | cons q rest ih =>
        simp only [List.map_cons, hl q (List.mem_cons_self q rest),
          ih fun r hr => hl r (List.mem_cons_of_mem q hr)]
  rw [loadEqualizerSettingsAtStartup_valid _ _ (pyIntList_save gains)
    (by simp [hlen])]
  show (gains.map pyTrunc).map (fun z : ℤ => (z : ℚ)) = gains
  rw [List.map_map]
  exact hmapid gains hpt

/-- Witness for C7 (amended) at the spec's example vector
`[2, 4, 3, 1, 0, 1, 2, 3, 2, 1]`. -/
theorem equalizerSettings_roundtrip_integer_witness :
    ((loadEqualizerSettingsAtStartup (some (saveEqualizerSettings
        [2, 4, 3, 1, 0, 1, 2, 3, 2, 1]))).1.map (fun z : ℤ => (z : ℚ))) =
      [2, 4, 3, 1, 0, 1, 2, 3, 2, 1] :=
  equalizerSettings_roundtrip_integer [2, 4, 3, 1, 0, 1, 2, 3, 2, 1] rfl
    (by intro q hq; fin_cases hq <;> norm_num)
    (by intro q hq; fin_cases hq <;> norm_num)

/-- A stored list containing a non-convertible element makes the int()
conversion raise. -/
theorem pyIntList_none_of_mem (l : List StoredVal)
    (h : StoredVal.nonNumeric ∈ l) : pyIntList l = none := by
  induction l with
  | nil => cases h
  | cons v rest ih =>
      rcases List.mem_cons.mp h with hv | hr
      · rw [← hv]
        cases hrest : pyIntList rest <;>
          simp [pyIntList, pyIntOfStored, hrest]
      · cases hv2 : pyIntOfStored v <;>
          simp [pyIntList, ih hr, hv2]

/-- A successful int() conversion preserves the element count. -/
theorem pyIntList_length (l : List StoredVal) (res : List ℤ)
    (h : pyIntList l = some res) : res.length = l.length := by
  induction l generalizing res with
  | nil =>
      simp [pyIntList] at h
      simp [← h]
  | cons v rest ih =>
      unfold pyIntList at h
      cases hv : pyIntOfStored v with
      | none =>
          rw [hv] at h
          simp at h
      | some z =>
          rw [hv] at h
          cases hrest : pyIntList rest with
          | none =>
              rw [hrest] at h
              simp at h
          | some zs =>
              rw [hrest] at h
              simp at h
              rw [← h]
              simp [ih zs hrest]

/-- C8: when the persisted equalizer settings are invalid — the stored list
does not have exactly 10 elements, or some element cannot be converted by
int() — the startup load resets the active settings to the flat all-zero
vector and persists that default, instead of propagating the error. -/
theorem loadEqualizerSettings_invalid_resets (l : List StoredVal)
    (h : l.length ≠ 10 ∨ StoredVal.nonNumeric ∈ l) :
    loadEqualizerSettingsAtStartup (some l) =
      (List.replicate 10 0, some (List.replicate 10 0)) := by
  unfold loadEqualizerSettingsAtStartup
  cases hconv : pyIntList l with
  | none => simp only [Option.getD_some, hconv]
  | some settings =>
      rcases h with hlen | hmem
      · have hlen2 : settings.length ≠ 10 := by
          rw [pyIntList_length l settings hconv]
          exact hlen
        simp only [Option.getD_some, hconv]
        rw [if_pos hlen2]
      · exact absurd hconv (by simp [pyIntList_none_of_mem l hmem])

/-- Witness for C8: a stored list with a single numeric element (wrong
length). -/
theorem loadEqualizerSettings_invalid_resets_witness :
    loadEqualizerSettingsAtStartup (some [StoredVal.num 1]) =
      (List.replicate 10 0, some (List.replicate 10 0)) :=
  loadEqualizerSettings_invalid_resets [StoredVal.num 1] (Or.inl (by simp))
